import Mathlib

/-!
Verification development for the echolog synchronization pipeline.

The definitions below are shallow embeddings of the TypeScript sources:
`src/utils/rtpUtils.ts` (RTP header codec and jitter buffer),
`src/core/UserStreamHandler.ts` (per-participant decode loop),
`src/scripts/mix.ts` (timeline and mix planner) and the drift corrector.
Byte buffers are lists of naturals, machine numbers are `Nat`/`Int`, and
fractional arithmetic (milliseconds, regression) is done in `ℚ`.
`Date.now()` / `process.hrtime()` readings are passed as explicit `now`
arguments.  Fallible functions return `Except String`.
-/

/-! ### RTP header codec (`src/utils/rtpUtils.ts`) -/

structure RtpHeader where
  version : ℕ
  padding : Bool
  extension : Bool
  csrcCount : ℕ
  marker : Bool
  payloadType : ℕ
  sequenceNumber : ℕ
  timestamp : ℕ
  ssrc : ℕ
deriving DecidableEq

/-- `Buffer.readUInt16BE(i)` on a byte list. -/
def readUInt16BE (buffer : List ℕ) (i : ℕ) : ℕ :=
  buffer.getD i 0 * 256 + buffer.getD (i + 1) 0

/-- `Buffer.readUInt32BE(i)` on a byte list. -/
def readUInt32BE (buffer : List ℕ) (i : ℕ) : ℕ :=
  ((buffer.getD i 0 * 256 + buffer.getD (i + 1) 0) * 256 + buffer.getD (i + 2) 0) * 256
    + buffer.getD (i + 3) 0

/-- `parseRtpHeader` from `rtpUtils.ts`: the only failure is the 12-byte
minimum-length check; bit-field extraction mirrors the shifts and masks. -/
def parseRtpHeader (buffer : List ℕ) : Except String RtpHeader :=
  if buffer.length < 12 then
    Except.error "Buffer too small for RTP header"
  else
    let firstByte := buffer.getD 0 0
    let secondByte := buffer.getD 1 0
    Except.ok
      { version := firstByte / 64 % 4
        padding := firstByte / 32 % 2 == 1
        extension := firstByte / 16 % 2 == 1
        csrcCount := firstByte % 16
        marker := secondByte / 128 % 2 == 1
        payloadType := secondByte % 128
        sequenceNumber := readUInt16BE buffer 2
        timestamp := readUInt32BE buffer 4
        ssrc := readUInt32BE buffer 8 }

/-- Start of the payload after the fixed header and the CSRC list
(before any extension block), as computed by `extractOpusPayload`. -/
def csrcPayloadStart (header : RtpHeader) : ℕ :=
  12 + (if header.csrcCount > 0 then header.csrcCount * 4 else 0)

/-- `extractOpusPayload` from `rtpUtils.ts`.  `Buffer.slice(start)` is
`List.drop start`, which like Node clamps to an empty list when `start`
exceeds the buffer length. -/
def extractOpusPayload (buffer : List ℕ) : Except String (List ℕ) :=
  match parseRtpHeader buffer with
  | Except.error e => Except.error e
  | Except.ok header =>
    let payloadStart := csrcPayloadStart header
    if header.extension then
      if buffer.length < payloadStart + 4 then
        Except.error "Buffer too small for RTP extension header"
      else
        let extensionLength := readUInt16BE buffer (payloadStart + 2)
        Except.ok (buffer.drop (payloadStart + 4 + extensionLength * 4))
    else
      Except.ok (buffer.drop payloadStart)

/-- `hrtimeToMs` from `rtpUtils.ts`, on an hrtime pair (seconds, nanos). -/
def hrtimeToMs (hrtime : ℤ × ℤ) : ℚ :=
  ((hrtime.1 * 1000000000 + hrtime.2 : ℤ) : ℚ) / 1000000

/-! ### Jitter buffer (`src/utils/jitterBuffer.ts`) -/

def TARGET_DELAY_MS : ℤ := 150
def MAX_JITTER_MS : ℤ := 60
def FRAME_DURATION_MS : ℤ := 20

structure JitterBufferPacket where
  data : List ℕ
  sequence : ℤ
  timestamp : ℤ
  bufferedAt : ℤ
deriving DecidableEq

structure JitterBuffer where
  packetQueue : List JitterBufferPacket
  lastFlushTime : ℤ
  expectedSequence : ℤ
  isInitialized : Bool
deriving DecidableEq

/-- The freshly constructed jitter buffer. -/
def JitterBuffer.initState : JitterBuffer :=
  { packetQueue := [], lastFlushTime := 0, expectedSequence := 0, isInitialized := false }

/-- Stable insertion step: a new element goes after existing elements with
the same sequence number, as in V8's stable `Array.prototype.sort`. -/
def insertBySeq (p : JitterBufferPacket) : List JitterBufferPacket → List JitterBufferPacket
  | [] => [p]
  | q :: rest => if q.sequence ≤ p.sequence then q :: insertBySeq p rest else p :: q :: rest

/-- `packetQueue.sort((a, b) => a.sequence - b.sequence)`: a stable
ascending sort by sequence number, modelled as left-to-right stable
insertion. -/
def sortBySeq (l : List JitterBufferPacket) : List JitterBufferPacket :=
  l.foldl (fun acc p => insertBySeq p acc) []

/-- `bufferPacket`: push (stamping `bufferedAt` with the arrival instant),
seed `expectedSequence` on the first packet, then sort by sequence. -/
def JitterBuffer.bufferPacket (s : JitterBuffer) (packet : JitterBufferPacket) (now : ℤ) :
    JitterBuffer :=
  let pushed := s.packetQueue ++ [{ packet with bufferedAt := now }]
  { packetQueue := sortBySeq pushed
    lastFlushTime := s.lastFlushTime
    expectedSequence := if s.isInitialized then s.expectedSequence else packet.sequence
    isInitialized := true }

/-- `shouldFlush(currentTime)`: false on an empty queue, else the dual
age/cadence condition. -/
def JitterBuffer.shouldFlush (s : JitterBuffer) (now : ℤ) : Bool :=
  match s.packetQueue with
  | [] => false
  | oldestPacket :: _ =>
    decide (TARGET_DELAY_MS ≤ now - oldestPacket.bufferedAt) ||
    decide (FRAME_DURATION_MS ≤ now - s.lastFlushTime)

/-- `createSilencePacket`: a minimal Opus silence frame tagged with the
missing sequence number. -/
def createSilencePacket (sequence : ℤ) (now : ℤ) : JitterBufferPacket :=
  { data := [0xF8, 0xFF, 0xFE], sequence := sequence, timestamp := 0, bufferedAt := now }

/-- `packetQueue.findIndex(p => p.sequence === seq)` followed by
`splice(index, 1)`: remove the first packet with the given sequence. -/
def spliceFirst (seq : ℤ) : List JitterBufferPacket →
    Option (JitterBufferPacket × List JitterBufferPacket)
  | [] => none
  | p :: rest =>
    if p.sequence = seq then some (p, rest)
    else
      match spliceFirst seq rest with
      | none => none
      | some (q, rest') => some (q, p :: rest')

/-- The flush loop `for (i = 0; i < expectedPackets && queue.length > 0; i++)`:
returns the emitted packets and the remaining queue. -/
def flushSlots (now : ℤ) : ℕ → ℤ → List JitterBufferPacket →
    List JitterBufferPacket × List JitterBufferPacket
  | 0, _, queue => ([], queue)
  | Nat.succ k, seq, queue =>
    if queue.isEmpty then ([], queue)
    else
      match spliceFirst seq queue with
      | some (p, queue') =>
        let r := flushSlots now k (seq + 1) queue'
        (p :: r.1, r.2)
      | none =>
        let r := flushSlots now k (seq + 1) queue
        (createSilencePacket seq now :: r.1, r.2)

/-- `Math.max(1, Math.floor(timeSpan / FRAME_DURATION_MS))` where the
time span is measured from the head of the (sequence-sorted) queue. -/
def expectedPacketCount (s : JitterBuffer) (now : ℤ) : ℤ :=
  let oldestTime := match s.packetQueue with
    | [] => now
    | p :: _ => p.bufferedAt
  max 1 ((now - oldestTime).fdiv FRAME_DURATION_MS)

/-- `flush()`: no-op unless `shouldFlush`; otherwise run the slot loop and
advance `expectedSequence` by the full expected-packet count. -/
def JitterBuffer.flush (s : JitterBuffer) (now : ℤ) :
    List JitterBufferPacket × JitterBuffer :=
  if s.shouldFlush now then
    let expectedPackets := expectedPacketCount s now
    let r := flushSlots now expectedPackets.toNat s.expectedSequence s.packetQueue
    (r.1,
      { packetQueue := r.2
        lastFlushTime := now
        expectedSequence := s.expectedSequence + expectedPackets
        isInitialized := s.isInitialized })
  else ([], s)

/-- `clear()`: drop all buffered state and reset initialization. -/
def JitterBuffer.clearState (_ : JitterBuffer) : JitterBuffer :=
  JitterBuffer.initState

/-- Externally observable jitter-buffer operations, with the `Date.now()`
reading at which each occurs. -/
inductive JitterEvent where
  | bufferEv (packet : JitterBufferPacket) (now : ℤ)
  | flushEv (now : ℤ)
  | clearEv
deriving DecidableEq

/-- Run a sequence of operations from a state, concatenating everything the
flush calls emit. -/
def runEvents (s : JitterBuffer) : List JitterEvent → JitterBuffer × List JitterBufferPacket
  | [] => (s, [])
  | JitterEvent.bufferEv p t :: rest => runEvents (s.bufferPacket p t) rest
  | JitterEvent.flushEv t :: rest =>
    let r := s.flush t
    let r' := runEvents r.2 rest
    (r'.1, r.1 ++ r'.2)
  | JitterEvent.clearEv :: rest => runEvents (JitterBuffer.clearState s) rest

/-- Well-formedness maintained by every reachable jitter-buffer state:
an uninitialized buffer has an empty queue, and the queue is sorted by
sequence number. -/
def JitterBufferWF (s : JitterBuffer) : Prop :=
  (s.isInitialized = false → s.packetQueue = []) ∧
  s.packetQueue.Pairwise (fun a b => a.sequence ≤ b.sequence)

/-! ### Timeline and mix planner (`src/scripts/mix.ts`) -/

structure TrackMetadata where
  userId : String
  ssrc : ℕ
  startTimeRTP : ℕ
  startTimeHR : ℤ × ℤ
  opusSampleRate : ℕ
  pcmSampleRate : ℕ
  filename : String
deriving DecidableEq

/-- `Math.round`, on exact rationals: floor of `q + 1/2`. -/
def jsRound (q : ℚ) : ℤ := ⌊q + 1 / 2⌋

/-- `calculateGlobalStartTime`: 0 for no tracks, otherwise
`Math.min(...tracks.map(t => hrtimeToMs(t.startTimeHR)))`. -/
def calculateGlobalStartTime (tracks : List TrackMetadata) : ℚ :=
  match tracks.map (fun track => hrtimeToMs track.startTimeHR) with
  | [] => 0
  | x :: xs => xs.foldl min x

/-- `calculateTrackDelays`, as the sequence of `(userId, delay)` entries
inserted into the `Map` in track order. -/
def calculateTrackDelays (tracks : List TrackMetadata) (globalStartTime : ℚ) :
    List (String × ℤ) :=
  tracks.map (fun track =>
    (track.userId, max 0 (jsRound (hrtimeToMs track.startTimeHR - globalStartTime))))

/-! ### Drift corrector -/

structure AudioPacket where
  data : List ℕ
  sequence : ℤ
  timestamp : ℚ
  arrivalTime : ℚ
  userId : String
deriving DecidableEq

structure UserTimeline where
  userId : String
  ssrc : ℕ
  firstPacketTime : ℚ
  lastSequence : ℤ
  timestampOffset : ℚ
  packets : List AudioPacket
deriving DecidableEq

structure DriftInfo where
  driftMs : ℚ
  confidence : ℚ
  samplesAnalyzed : ℕ
deriving DecidableEq

structure RegressionResult where
  slope : ℚ
  intercept : ℚ
  r2 : ℚ
deriving DecidableEq

def DRIFT_THRESHOLD_MS : ℚ := 10
def MIN_SAMPLES_FOR_ANALYSIS : ℕ := 100

/-- `calculateLinearRegression` from the drift corrector.  The two lists
always have equal length at the call site (both projected from the same
packet list), so the index-paired reduce is a `zip`.  Division by a zero
denominator (all x equal) is `0` in `ℚ`. -/
def calculateLinearRegression (xValues yValues : List ℚ) : RegressionResult :=
  let n : ℕ := xValues.length
  if n < 2 then { slope := 1, intercept := 0, r2 := 0 }
  else
    let sumX := xValues.sum
    let sumY := yValues.sum
    let sumXY := ((xValues.zip yValues).map (fun p => p.1 * p.2)).sum
    let sumXX := (xValues.map (fun x => x * x)).sum
    let slope := ((n : ℚ) * sumXY - sumX * sumY) / ((n : ℚ) * sumXX - sumX * sumX)
    let intercept := (sumY - slope * sumX) / (n : ℚ)
    let meanY := sumY / (n : ℚ)
    let ssRes := ((xValues.zip yValues).map
      (fun p => (p.2 - (slope * p.1 + intercept)) ^ 2)).sum
    let ssTot := (yValues.map (fun y => (y - meanY) ^ 2)).sum
    let r2 := if ssTot = 0 then 1 else 1 - ssRes / ssTot
    { slope := slope, intercept := intercept, r2 := r2 }

/-- `detectDrift(timeline)`: below the 100-sample minimum report zero drift
and zero confidence; otherwise regress media time (RTP timestamp / 48, in
milliseconds) against arrival time. -/
def detectDrift (timeline : UserTimeline) : DriftInfo :=
  let packets := timeline.packets
  if packets.length < MIN_SAMPLES_FOR_ANALYSIS then
    { driftMs := 0, confidence := 0, samplesAnalyzed := packets.length }
  else
    let regression := calculateLinearRegression
      (packets.map (fun p => p.arrivalTime))
      (packets.map (fun p => p.timestamp / 48))
    { driftMs := (regression.slope - 1) * 1000
      confidence := regression.r2
      samplesAnalyzed := packets.length }

/-- Outcome of `correctDrift`: either the input file is passed through
unchanged, or a tempo-adjusted re-render of it is requested with the given
`atempo` factor. -/
inductive DriftCorrectionResult where
  | unchanged (file : String)
  | rerendered (file : String) (atempoFactor : ℚ)
deriving DecidableEq

/-- `correctDrift(inputFile, driftMs, outputDir)`: below the 10ms threshold
return the input unchanged; otherwise re-render with the stretch factor
`1 - driftMs/1000` clamped into `[0.95, 1.05]`. -/
def correctDrift (inputFile : String) (driftMs : ℚ) : DriftCorrectionResult :=
  if |driftMs| < DRIFT_THRESHOLD_MS then
    DriftCorrectionResult.unchanged inputFile
  else
    let stretchFactor := 1 - driftMs / 1000
    let clampedFactor := max (95 / 100 : ℚ) (min (105 / 100 : ℚ) stretchFactor)
    DriftCorrectionResult.rerendered inputFile clampedFactor

/-! ### Spec-side regression definitions

These follow the specification's wording ("ordinary-least-squares slope",
"coefficient of determination R-squared, 1.0 at zero total variance") in
their textbook mean-centred form, to be compared with the computational
form used by `calculateLinearRegression`. -/

def listMean (l : List ℚ) : ℚ := l.sum / l.length

/-- OLS slope in covariance-over-variance form. -/
def olsSlope (xs ys : List ℚ) : ℚ :=
  ((xs.zip ys).map (fun p => (p.1 - listMean xs) * (p.2 - listMean ys))).sum /
    (xs.map (fun x => (x - listMean xs) ^ 2)).sum

/-- OLS intercept `mean y - slope * mean x`. -/
def olsIntercept (xs ys : List ℚ) : ℚ :=
  listMean ys - olsSlope xs ys * listMean xs

/-- Residual sum of squares of the OLS fit. -/
def residualSS (xs ys : List ℚ) : ℚ :=
  ((xs.zip ys).map
    (fun p => (p.2 - (olsSlope xs ys * p.1 + olsIntercept xs ys)) ^ 2)).sum

/-- Total sum of squares of the y-values. -/
def totalSS (ys : List ℚ) : ℚ :=
  (ys.map (fun y => (y - listMean ys) ^ 2)).sum

/-- Coefficient of determination, defined as 1 when the total variance of
the y-values is zero. -/
def rSquared (xs ys : List ℚ) : ℚ :=
  if totalSS ys = 0 then 1 else 1 - residualSS xs ys / totalSS ys

/-! ### Stream decoder adapter (`src/core/UserStreamHandler.ts`) -/

/-- 20ms of 48kHz 16-bit stereo silence: `Buffer.alloc(3840, 0)`. -/
def silencePCMBlock : List ℕ := List.replicate 3840 0

/-- The decode-and-persist loop body of `processJitterBuffer`: each emitted
frame is decoded by the external codec capability; a per-frame decode
failure (`none`) is caught and replaced by one frame of PCM silence. -/
def processFlushedPackets (decode : List ℕ → Option (List ℕ))
    (packets : List JitterBufferPacket) : List (List ℕ) :=
  packets.map (fun packet =>
    match decode packet.data with
    | some pcmData => pcmData
    | none => silencePCMBlock)

/-- One active flush-cycle tick: flush the jitter buffer, then write one PCM
block per emitted frame. -/
def processJitterBuffer (decode : List ℕ → Option (List ℕ)) (s : JitterBuffer) (now : ℤ) :
    JitterBuffer × List (List ℕ) :=
  let r := s.flush now
  (r.2, processFlushedPackets decode r.1)

/-! ### Concrete inputs used by witnesses and counterexamples -/

/-- A 16-byte packet: version 2, extension flag set, no CSRCs, and an
extension header at offset 12 declaring 100 extension words (400 bytes),
which places the payload start at byte 416, far past the end. -/
def oversizedExtensionPacket : List ℕ :=
  [0x90, 0x00, 0x00, 0x01, 0x00, 0x00, 0x00, 0x00, 0x00, 0x00, 0x00, 0x01,
   0x00, 0x00, 0x00, 0x64]

/-- A 12-byte packet whose version field is 0 (not 2). -/
def zeroVersionPacket : List ℕ :=
  [0x00, 0x00, 0x00, 0x05, 0x00, 0x00, 0x00, 0x00, 0x00, 0x00, 0x00, 0x07]

/-- An 11-byte packet, one byte short of the fixed header. -/
def shortPacket : List ℕ :=
  [0x80, 0x00, 0x00, 0x05, 0x00, 0x00, 0x00, 0x00, 0x00, 0x00, 0x00]

def packet4 : JitterBufferPacket := { data := [10], sequence := 4, timestamp := 0, bufferedAt := 0 }
def packet7 : JitterBufferPacket := { data := [11], sequence := 7, timestamp := 0, bufferedAt := 0 }

/-- Buffer state with packets 4 and 7 buffered (5 and 6 missing) and
`expectedSequence = 4`. -/
def gapState : JitterBuffer :=
  { packetQueue := [packet4, packet7], lastFlushTime := 0, expectedSequence := 4,
    isInitialized := true }

/-- A packet whose slot has already been passed over: sequence 3 while the
buffer expects 5. -/
def stalePacket : JitterBufferPacket := { data := [9], sequence := 3, timestamp := 0, bufferedAt := 0 }

def staleState : JitterBuffer :=
  { packetQueue := [stalePacket], lastFlushTime := 0, expectedSequence := 5,
    isInitialized := true }

/-- Trace exhibiting the early-exit of the flush loop: one packet (sequence
10) buffered at time 0, then a flush at time 60 (3 elapsed slots). -/
def earlyExitTrace : List JitterEvent :=
  [JitterEvent.bufferEv { data := [1], sequence := 10, timestamp := 0, bufferedAt := 0 } 0,
   JitterEvent.flushEv 60]

/-- Reordered/duplicated arrivals followed by flushes, for the ordering witness. -/
def reorderTrace : List JitterEvent :=
  [JitterEvent.bufferEv { data := [2], sequence := 6, timestamp := 0, bufferedAt := 0 } 0,
   JitterEvent.bufferEv { data := [1], sequence := 5, timestamp := 0, bufferedAt := 1 } 1,
   JitterEvent.bufferEv { data := [1], sequence := 5, timestamp := 0, bufferedAt := 2 } 2,
   JitterEvent.flushEv 40,
   JitterEvent.flushEv 60]

/-- packets (arrivalTime i, timestamp 48 i) for i < 100: a perfect 1:1 clock. -/
def syntheticPackets : List AudioPacket :=
  (List.range 100).map (fun i =>
    { data := [], sequence := (i : ℤ), timestamp := 48 * (i : ℚ), arrivalTime := (i : ℚ),
      userId := "u" })

def syntheticTimeline : UserTimeline :=
  { userId := "u", ssrc := 1, firstPacketTime := 0, lastSequence := 0, timestampOffset := 0,
    packets := syntheticPackets }

def tinyTimeline : UserTimeline :=
  { userId := "u", ssrc := 1, firstPacketTime := 0, lastSequence := 0, timestampOffset := 0,
    packets := (List.range 3).map (fun i =>
      { data := [], sequence := (i : ℤ), timestamp := (i : ℚ), arrivalTime := (i : ℚ),
        userId := "u" }) }

/-- Three tracks starting 100ms, 250ms and 400ms into the session. -/
def exampleTracks : List TrackMetadata :=
  [{ userId := "a", ssrc := 1, startTimeRTP := 0, startTimeHR := (0, 100000000),
     opusSampleRate := 48000, pcmSampleRate := 48000, filename := "a.pcm" },
   { userId := "b", ssrc := 2, startTimeRTP := 0, startTimeHR := (0, 250000000),
     opusSampleRate := 48000, pcmSampleRate := 48000, filename := "b.pcm" },
   { userId := "c", ssrc := 3, startTimeRTP := 0, startTimeHR := (0, 400000000),
     opusSampleRate := 48000, pcmSampleRate := 48000, filename := "c.pcm" }]

/-- A decode capability that fails on payload `[1]` and succeeds otherwise. -/
def failingDecode : List ℕ → Option (List ℕ) :=
  fun d => if d = [1] then none else some [5, 5]

def decodeState : JitterBuffer :=
  { packetQueue := [{ data := [1], sequence := 0, timestamp := 0, bufferedAt := 0 }],
    lastFlushTime := 0, expectedSequence := 0, isInitialized := true }

/-- The header parsed from `oversizedExtensionPacket`. -/
def hdrOversized : RtpHeader :=
  { version := 2, padding := false, extension := true, csrcCount := 0, marker := false,
    payloadType := 0, sequenceNumber := 1, timestamp := 0, ssrc := 1 }

/-! ## Helper lemmas -/

/-! ### The stable sort -/

theorem mem_insertBySeq (p x : JitterBufferPacket) :
    ∀ l : List JitterBufferPacket, x ∈ insertBySeq p l ↔ x = p ∨ x ∈ l := by
  intro l
  induction l with
  | nil => simp [insertBySeq]
  | cons q rest ih =>
    by_cases hq : q.sequence ≤ p.sequence
    · simp only [insertBySeq, if_pos hq, List.mem_cons, ih]
      tauto
    · simp only [insertBySeq, if_neg hq, List.mem_cons]

theorem sorted_insertBySeq (p : JitterBufferPacket) :
    ∀ l : List JitterBufferPacket, l.Pairwise (fun a b => a.sequence ≤ b.sequence) →
      (insertBySeq p l).Pairwise (fun a b => a.sequence ≤ b.sequence) := by
  intro l
  induction l with
  | nil => intro _; simp [insertBySeq]
  | cons q rest ih =>
    intro hs
    rw [List.pairwise_cons] at hs
    by_cases hq : q.sequence ≤ p.sequence
    · rw [insertBySeq, if_pos hq, List.pairwise_cons]
      refine ⟨?_, ih hs.2⟩
      intro x hx
      rcases (mem_insertBySeq p x rest).mp hx with h | h
      · exact h ▸ hq
      · exact hs.1 x h
    · rw [insertBySeq, if_neg hq, List.pairwise_cons]
      have hpq : p.sequence ≤ q.sequence := le_of_lt (lt_of_not_le hq)
      refine ⟨?_, List.pairwise_cons.mpr hs⟩
      intro x hx
      rcases List.mem_cons.mp hx with h | h
      · exact h ▸ hpq
      · exact le_trans hpq (hs.1 x h)

theorem mem_sortBySeq_aux (x : JitterBufferPacket) :
    ∀ (l acc : List JitterBufferPacket),
      (x ∈ l.foldl (fun acc p => insertBySeq p acc) acc ↔ x ∈ acc ∨ x ∈ l) := by
  intro l
  induction l with
  | nil => intro acc; simp
  | cons p rest ih =>
    intro acc
    rw [List.foldl_cons, ih, mem_insertBySeq]
    simp
    tauto

theorem mem_sortBySeq (x : JitterBufferPacket) (l : List JitterBufferPacket) :
    x ∈ sortBySeq l ↔ x ∈ l := by
  rw [sortBySeq, mem_sortBySeq_aux]
  simp

theorem sorted_sortBySeq_aux :
    ∀ (l acc : List JitterBufferPacket),
      acc.Pairwise (fun a b => a.sequence ≤ b.sequence) →
      (l.foldl (fun acc p => insertBySeq p acc) acc).Pairwise
        (fun a b => a.sequence ≤ b.sequence) := by
  intro l
  induction l with
  | nil => intro acc h; simpa using h
  | cons p rest ih =>
    intro acc h
    rw [List.foldl_cons]
    exact ih _ (sorted_insertBySeq p acc h)

theorem sorted_sortBySeq (l : List JitterBufferPacket) :
    (sortBySeq l).Pairwise (fun a b => a.sequence ≤ b.sequence) :=
  sorted_sortBySeq_aux l [] (by simp)

/-! ### `spliceFirst` -/

theorem spliceFirst_spec :
    ∀ (q : List JitterBufferPacket) (seq : ℤ) (r : JitterBufferPacket)
      (q' : List JitterBufferPacket), spliceFirst seq q = some (r, q') →
      r.sequence = seq ∧ r ∈ q ∧ q'.Sublist q ∧
      (∀ p ∈ q, p.sequence ≠ seq → p ∈ q') := by
  intro q
  induction q with
  | nil => intro seq r q' h; simp [spliceFirst] at h
  | cons p rest ih =>
    intro seq r q' h
    by_cases hp : p.sequence = seq
    · rw [spliceFirst, if_pos hp] at h
      obtain ⟨hr, hq'⟩ : p = r ∧ rest = q' := by
        constructor <;> [exact congrArg Prod.fst (Option.some.inj h);
          exact congrArg Prod.snd (Option.some.inj h)]
      subst hr; subst hq'
      refine ⟨hp, List.mem_cons_self _ _, List.sublist_cons_self _ _, ?_⟩
      intro x hx hxne
      rcases List.mem_cons.mp hx with hxe | hxm
      · exact absurd (hxe ▸ hp) hxne
      · exact hxm
    · rw [spliceFirst, if_neg hp] at h
      cases hrec : spliceFirst seq rest with
      | none => rw [hrec] at h; exact absurd h (by simp)
      | some pr =>
        obtain ⟨r0, rest'⟩ := pr
        rw [hrec] at h
        obtain ⟨hr, hq'⟩ : r0 = r ∧ p :: rest' = q' := by
          constructor <;> [exact congrArg Prod.fst (Option.some.inj h);
            exact congrArg Prod.snd (Option.some.inj h)]
        subst hq'
        rw [← hr]
        obtain ⟨hseq, hmem, hsub, hkeep⟩ := ih seq r0 rest' hrec
        refine ⟨hseq, List.mem_cons_of_mem _ hmem, List.Sublist.cons₂ _ hsub, ?_⟩
        intro x hx hxne
        rcases List.mem_cons.mp hx with hxe | hxm
        · exact hxe ▸ List.mem_cons_self _ _
        · exact List.mem_cons_of_mem _ (hkeep x hxm hxne)

theorem spliceFirst_none :
    ∀ (q : List JitterBufferPacket) (seq : ℤ), spliceFirst seq q = none →
      ∀ p ∈ q, p.sequence ≠ seq := by
  intro q
  induction q with
  | nil => intro seq _ p hp; simp at hp
  | cons x rest ih =>
    intro seq h p hp
    by_cases hx : x.sequence = seq
    · rw [spliceFirst, if_pos hx] at h; exact absurd h (by simp)
    · rw [spliceFirst, if_neg hx] at h
      cases hrec : spliceFirst seq rest with
      | none =>
        rcases List.mem_cons.mp hp with he | hm
        · exact he ▸ hx
        · exact ih seq hrec p hm
      | some pr => rw [hrec] at h; obtain ⟨r0, rest'⟩ := pr; exact absurd h (by simp)

/-! ### The flush loop -/

theorem flushSlots_length_le (now : ℤ) :
    ∀ (n : ℕ) (seq : ℤ) (q : List JitterBufferPacket),
      (flushSlots now n seq q).1.length ≤ n := by
  intro n
  induction n with
  | zero => intro seq q; simp [flushSlots]
  | succ k ih =>
    intro seq q
    by_cases hq : q.isEmpty = true
    · simp [flushSlots, hq]
    · rw [flushSlots, if_neg hq]
      cases hsp : spliceFirst seq q with
      | some pr =>
        obtain ⟨p, q'⟩ := pr
        simpa using Nat.succ_le_succ (ih (seq + 1) q')
      | none =>
        simpa using Nat.succ_le_succ (ih (seq + 1) q)

theorem flushSlots_getElem_seq (now : ℤ) :
    ∀ (n : ℕ) (seq : ℤ) (q : List JitterBufferPacket) (i : ℕ) (x : JitterBufferPacket),
      (flushSlots now n seq q).1[i]? = some x → x.sequence = seq + i := by
  intro n
  induction n with
  | zero => intro seq q i x h; simp [flushSlots] at h
  | succ k ih =>
    intro seq q i x h
    by_cases hq : q.isEmpty = true
    · rw [flushSlots, if_pos hq] at h
      simp at h
    · rw [flushSlots, if_neg hq] at h
      cases hsp : spliceFirst seq q with
      | some pr =>
        obtain ⟨p, q'⟩ := pr
        rw [hsp] at h
        cases i with
        | zero =>
          simp only [List.getElem?_cons_zero, Option.some.injEq] at h
          rw [← h]
          simpa using (spliceFirst_spec q seq p q' hsp).1
        | succ j =>
          simp only [List.getElem?_cons_succ] at h
          have := ih (seq + 1) q' j x h
          rw [this]
          push_cast
          ring
      | none =>
        rw [hsp] at h
        cases i with
        | zero =>
          simp only [List.getElem?_cons_zero, Option.some.injEq] at h
          rw [← h]
          simp [createSilencePacket]
        | succ j =>
          simp only [List.getElem?_cons_succ] at h
          have := ih (seq + 1) q j x h
          rw [this]
          push_cast
          ring

theorem flushSlots_length_eq_or_nil (now : ℤ) :
    ∀ (n : ℕ) (seq : ℤ) (q : List JitterBufferPacket),
      (flushSlots now n seq q).1.length = n ∨ (flushSlots now n seq q).2 = [] := by
  intro n
  induction n with
  | zero => intro seq q; left; simp [flushSlots]
  | succ k ih =>
    intro seq q
    by_cases hq : q.isEmpty = true
    · right; rw [flushSlots, if_pos hq]; exact List.isEmpty_iff.mp hq
    · rw [flushSlots, if_neg hq]
      cases hsp : spliceFirst seq q with
      | some pr =>
        obtain ⟨p, q'⟩ := pr
        rcases ih (seq + 1) q' with hl | hr
        · left; simpa using congrArg Nat.succ hl
        · right; simpa using hr
      | none =>
        rcases ih (seq + 1) q with hl | hr
        · left; simpa using congrArg Nat.succ hl
        · right; simpa using hr

theorem flushSlots_remaining_sublist (now : ℤ) :
    ∀ (n : ℕ) (seq : ℤ) (q : List JitterBufferPacket),
      (flushSlots now n seq q).2.Sublist q := by
  intro n
  induction n with
  | zero => intro seq q; simp [flushSlots]
  | succ k ih =>
    intro seq q
    by_cases hq : q.isEmpty = true
    · simp [flushSlots, hq]
    · rw [flushSlots, if_neg hq]
      cases hsp : spliceFirst seq q with
      | some pr =>
        obtain ⟨p, q'⟩ := pr
        exact List.Sublist.trans (by simpa using ih (seq + 1) q')
          (spliceFirst_spec q seq p q' hsp).2.2.1
      | none => simpa using ih (seq + 1) q

theorem flushSlots_keeps_stale (now : ℤ) :
    ∀ (n : ℕ) (seq : ℤ) (q : List JitterBufferPacket) (p : JitterBufferPacket),
      p ∈ q → p.sequence < seq → p ∈ (flushSlots now n seq q).2 := by
  intro n
  induction n with
  | zero => intro seq q p hp _; simpa [flushSlots] using hp
  | succ k ih =>
    intro seq q p hp hlt
    by_cases hq : q.isEmpty = true
    · simpa [flushSlots, hq] using hp
    · rw [flushSlots, if_neg hq]
      cases hsp : spliceFirst seq q with
      | some pr =>
        obtain ⟨r0, q'⟩ := pr
        have hpq' : p ∈ q' :=
          (spliceFirst_spec q seq r0 q' hsp).2.2.2 p hp (by exact ne_of_lt hlt)
        simpa using ih (seq + 1) q' p hpq' (lt_trans hlt (by linarith))
      | none =>
        simpa using ih (seq + 1) q p hp (lt_trans hlt (by linarith))

theorem flushSlots_getElem_mem (now : ℤ) :
    ∀ (n : ℕ) (seq : ℤ) (q : List JitterBufferPacket) (i : ℕ) (x : JitterBufferPacket),
      (flushSlots now n seq q).1[i]? = some x →
      (∃ p ∈ q, p.sequence = seq + i) → x ∈ q := by
  intro n
  induction n with
  | zero => intro seq q i x h; simp [flushSlots] at h
  | succ k ih =>
    intro seq q i x h hex
    by_cases hq : q.isEmpty = true
    · rw [flushSlots, if_pos hq] at h; simp at h
    · rw [flushSlots, if_neg hq] at h
      cases hsp : spliceFirst seq q with
      | some pr =>
        obtain ⟨r0, q'⟩ := pr
        rw [hsp] at h
        cases i with
        | zero =>
          simp only [List.getElem?_cons_zero, Option.some.injEq] at h
          rw [← h]
          exact (spliceFirst_spec q seq r0 q' hsp).2.1
        | succ j =>
          simp only [List.getElem?_cons_succ] at h
          obtain ⟨p, hpq, hps⟩ := hex
          have hpne : p.sequence ≠ seq := by
            rw [hps]
            have h0 : (0 : ℤ) < (j : ℤ) + 1 := by positivity
            push_cast
            linarith
          have hpq' : p ∈ q' := (spliceFirst_spec q seq r0 q' hsp).2.2.2 p hpq hpne
          have hex' : ∃ p ∈ q', p.sequence = (seq + 1) + j := by
            refine ⟨p, hpq', ?_⟩
            rw [hps]; push_cast; ring
          exact (spliceFirst_spec q seq r0 q' hsp).2.2.1.subset (ih (seq + 1) q' j x h hex')
      | none =>
        rw [hsp] at h
        cases i with
        | zero =>
          obtain ⟨p, hpq, hps⟩ := hex
          have hne : p.sequence ≠ seq := spliceFirst_none q seq hsp p hpq
          simp at hps
          exact absurd hps hne
        | succ j =>
          simp only [List.getElem?_cons_succ] at h
          have hex' : ∃ p ∈ q, p.sequence = (seq + 1) + j := by
            obtain ⟨p, hpq, hps⟩ := hex
            refine ⟨p, hpq, ?_⟩
            rw [hps]; push_cast; ring
          exact ih (seq + 1) q j x h hex'

theorem flushSlots_getElem_silence (now : ℤ) :
    ∀ (n : ℕ) (seq : ℤ) (q : List JitterBufferPacket) (i : ℕ) (x : JitterBufferPacket),
      (flushSlots now n seq q).1[i]? = some x →
      (¬ ∃ p ∈ q, p.sequence = seq + i) →
      x = createSilencePacket (seq + i) now := by
  intro n
  induction n with
  | zero => intro seq q i x h; simp [flushSlots] at h
  | succ k ih =>
    intro seq q i x h hnex
    by_cases hq : q.isEmpty = true
    · rw [flushSlots, if_pos hq] at h; simp at h
    · rw [flushSlots, if_neg hq] at h
      cases hsp : spliceFirst seq q with
      | some pr =>
        obtain ⟨r0, q'⟩ := pr
        rw [hsp] at h
        cases i with
        | zero =>
          exfalso
          exact hnex ⟨r0, (spliceFirst_spec q seq r0 q' hsp).2.1,
            by simpa using (spliceFirst_spec q seq r0 q' hsp).1⟩
        | succ j =>
          simp only [List.getElem?_cons_succ] at h
          have hnex' : ¬ ∃ p ∈ q', p.sequence = (seq + 1) + j := by
            intro ⟨p, hpq', hps⟩
            exact hnex ⟨p, (spliceFirst_spec q seq r0 q' hsp).2.2.1.subset hpq',
              by rw [hps]; push_cast; ring⟩
          have := ih (seq + 1) q' j x h hnex'
          rw [this]
          congr 1
          push_cast
          ring
      | none =>
        rw [hsp] at h
        cases i with
        | zero =>
          simp only [List.getElem?_cons_zero, Option.some.injEq] at h
          rw [← h]
          congr 1
          simp
        | succ j =>
          simp only [List.getElem?_cons_succ] at h
          have hnex' : ¬ ∃ p ∈ q, p.sequence = (seq + 1) + j := by
            intro ⟨p, hpq, hps⟩
            exact hnex ⟨p, hpq, by rw [hps]; push_cast; ring⟩
          have := ih (seq + 1) q j x h hnex'
          rw [this]
          congr 1
          push_cast
          ring

/-! ### Flush-level facts -/

theorem shouldFlush_queue_ne_nil {s : JitterBuffer} {now : ℤ}
    (hf : s.shouldFlush now = true) : s.packetQueue ≠ [] := by
  intro hnil
  simp [JitterBuffer.shouldFlush, hnil] at hf

theorem expectedPacketCount_pos (s : JitterBuffer) (now : ℤ) :
    1 ≤ expectedPacketCount s now := by
  rw [expectedPacketCount]
  exact le_max_left _ _

theorem flush_pos_eq (s : JitterBuffer) (now : ℤ) (hf : s.shouldFlush now = true) :
    s.flush now =
      ((flushSlots now (expectedPacketCount s now).toNat s.expectedSequence s.packetQueue).1,
       { packetQueue :=
           (flushSlots now (expectedPacketCount s now).toNat s.expectedSequence s.packetQueue).2
         lastFlushTime := now
         expectedSequence := s.expectedSequence + expectedPacketCount s now
         isInitialized := s.isInitialized }) := by
  simp [JitterBuffer.flush, hf]

theorem flush_neg_eq (s : JitterBuffer) (now : ℤ) (hf : s.shouldFlush now = false) :
    s.flush now = ([], s) := by
  simp [JitterBuffer.flush, hf]

theorem flush_isInitialized (s : JitterBuffer) (now : ℤ) :
    (s.flush now).2.isInitialized = s.isInitialized := by
  by_cases hf : s.shouldFlush now = true
  · rw [flush_pos_eq s now hf]
  · rw [flush_neg_eq s now (by simpa using hf)]

theorem flush_expected_mono (s : JitterBuffer) (now : ℤ) :
    s.expectedSequence ≤ (s.flush now).2.expectedSequence := by
  by_cases hf : s.shouldFlush now = true
  · rw [flush_pos_eq s now hf]
    have := expectedPacketCount_pos s now
    simp
    linarith
  · rw [flush_neg_eq s now (by simpa using hf)]

theorem flush_emitted_seq_bounds (s : JitterBuffer) (now : ℤ) :
    ∀ x ∈ (s.flush now).1,
      s.expectedSequence ≤ x.sequence ∧ x.sequence < (s.flush now).2.expectedSequence := by
  intro x hx
  by_cases hf : s.shouldFlush now = true
  · rw [flush_pos_eq s now hf] at hx ⊢
    show s.expectedSequence ≤ x.sequence ∧
      x.sequence < s.expectedSequence + expectedPacketCount s now
    obtain ⟨i, hxi⟩ := List.mem_iff_getElem?.mp hx
    have hseq := flushSlots_getElem_seq now _ _ _ i x hxi
    have hipos : (0 : ℤ) ≤ (i : ℤ) := Int.natCast_nonneg i
    have hilen : i < (flushSlots now (expectedPacketCount s now).toNat
        s.expectedSequence s.packetQueue).1.length := by
      by_contra hge
      rw [List.getElem?_eq_none (Nat.le_of_not_lt hge)] at hxi
      exact Option.noConfusion hxi
    have hle := flushSlots_length_le now (expectedPacketCount s now).toNat
      s.expectedSequence s.packetQueue
    have hik : (i : ℤ) < expectedPacketCount s now := by
      have h1 : i < (expectedPacketCount s now).toNat := lt_of_lt_of_le hilen hle
      have h2 : ((expectedPacketCount s now).toNat : ℤ) = expectedPacketCount s now :=
        Int.toNat_of_nonneg (by linarith [expectedPacketCount_pos s now])
      exact_mod_cast h2 ▸ (by exact_mod_cast h1 : ((i : ℕ) : ℤ) < ((expectedPacketCount s now).toNat : ℤ))
    constructor
    · rw [hseq]; linarith
    · rw [hseq]; linarith
  · rw [flush_neg_eq s now (by simpa using hf)] at hx
    simp at hx

theorem flushSlots_pairwise (now : ℤ) (n : ℕ) (seq : ℤ) (q : List JitterBufferPacket) :
    ((flushSlots now n seq q).1.map (fun p => p.sequence)).Pairwise (· < ·) := by
  rw [List.pairwise_map, List.pairwise_iff_getElem]
  intro i j hi hj hij
  have h1 := flushSlots_getElem_seq now n seq q i _ (List.getElem?_eq_getElem hi)
  have h2 := flushSlots_getElem_seq now n seq q j _ (List.getElem?_eq_getElem hj)
  show ((flushSlots now n seq q).1[i]).sequence < ((flushSlots now n seq q).1[j]).sequence
  rw [h1, h2]
  have hc : (i : ℤ) < (j : ℤ) := by exact_mod_cast hij
  linarith

theorem flush_emitted_pairwise (s : JitterBuffer) (now : ℤ) :
    ((s.flush now).1.map (fun p => p.sequence)).Pairwise (· < ·) := by
  by_cases hf : s.shouldFlush now = true
  · rw [flush_pos_eq s now hf]
    exact flushSlots_pairwise now _ _ _
  · rw [flush_neg_eq s now (by simpa using hf)]
    simp

/-! ### Emissions across whole event traces -/

theorem runEvents_emissions :
    ∀ (evs : List JitterEvent) (s : JitterBuffer),
      JitterEvent.clearEv ∉ evs →
      (s.isInitialized = false → s.packetQueue = []) →
      ((runEvents s evs).2.map (fun p => p.sequence)).Pairwise (· < ·) ∧
      (s.isInitialized = true →
        ∀ x ∈ (runEvents s evs).2, s.expectedSequence ≤ x.sequence) := by
  intro evs
  induction evs with
  | nil =>
    intro s _ _
    constructor
    · simp [runEvents]
    · intro _ x hx; simp [runEvents] at hx
  | cons e rest ih =>
    intro s hclear hinv
    have hclear' : JitterEvent.clearEv ∉ rest := fun hmem => hclear (List.mem_cons_of_mem _ hmem)
    cases e with
    | clearEv => exact absurd (List.mem_cons_self _ _) hclear
    | bufferEv p t =>
      have hres := ih (s.bufferPacket p t) hclear'
        (by intro hfalse; simp [JitterBuffer.bufferPacket] at hfalse)
      constructor
      · simpa [runEvents] using hres.1
      · intro hinit x hx
        simp only [runEvents] at hx
        have he : (s.bufferPacket p t).expectedSequence = s.expectedSequence := by
          simp [JitterBuffer.bufferPacket, hinit]
        have := hres.2 (by simp [JitterBuffer.bufferPacket]) x hx
        exact he ▸ this
    | flushEv t =>
      have hinv2 : ((s.flush t).2.isInitialized = false → (s.flush t).2.packetQueue = []) := by
        intro hfalse
        by_cases hf : s.shouldFlush t = true
        · rw [flush_isInitialized] at hfalse
          exact absurd (hinv hfalse) (shouldFlush_queue_ne_nil hf)
        · rw [flush_neg_eq s t (by simpa using hf)] at hfalse ⊢
          exact hinv hfalse
      have hres := ih (s.flush t).2 hclear' hinv2
      have hemit : (runEvents s (JitterEvent.flushEv t :: rest)).2 =
          (s.flush t).1 ++ (runEvents (s.flush t).2 rest).2 := by
        simp [runEvents]
      constructor
      · rw [hemit, List.map_append, List.pairwise_append]
        refine ⟨flush_emitted_pairwise s t, hres.1, ?_⟩
        intro a ha b hb
        obtain ⟨x, hxmem, hxa⟩ := List.mem_map.mp ha
        obtain ⟨y, hymem, hyb⟩ := List.mem_map.mp hb
        by_cases hf : s.shouldFlush t = true
        · have hinitS : s.isInitialized = true := by
            cases hb2 : s.isInitialized with
            | false => exact absurd (hinv hb2) (shouldFlush_queue_ne_nil hf)
            | true => rfl
          have hinit2 : (s.flush t).2.isInitialized = true := by
            rw [flush_isInitialized]; exact hinitS
          have hx2 := (flush_emitted_seq_bounds s t x hxmem).2
          have hy2 := hres.2 hinit2 y hymem
          rw [← hxa, ← hyb]
          show x.sequence < y.sequence
          linarith
        · rw [flush_neg_eq s t (by simpa using hf)] at hxmem
          simp at hxmem
      · intro hinit x hx
        rw [hemit, List.mem_append] at hx
        rcases hx with hx | hx
        · exact (flush_emitted_seq_bounds s t x hx).1
        · have hinit2 : (s.flush t).2.isInitialized = true := by
            rw [flush_isInitialized]; exact hinit
          have h1 := flush_expected_mono s t
          have h2 := hres.2 hinit2 x hx
          linarith

/-! ### Preservation of well-formedness and stale packets -/

theorem mem_bufferPacket_of_mem {s : JitterBuffer} {q : JitterBufferPacket}
    (p : JitterBufferPacket) (t : ℤ) (h : q ∈ s.packetQueue) :
    q ∈ (s.bufferPacket p t).packetQueue := by
  simp only [JitterBuffer.bufferPacket]
  rw [mem_sortBySeq]
  exact List.mem_append_left _ h

theorem wf_bufferPacket (s : JitterBuffer) (p : JitterBufferPacket) (t : ℤ) :
    JitterBufferWF (s.bufferPacket p t) := by
  constructor
  · intro hfalse
    simp [JitterBuffer.bufferPacket] at hfalse
  · exact sorted_sortBySeq _

theorem wf_flush (s : JitterBuffer) (now : ℤ) (hwf : JitterBufferWF s) :
    JitterBufferWF (s.flush now).2 := by
  by_cases hf : s.shouldFlush now = true
  · rw [flush_pos_eq s now hf]
    constructor
    · intro hfalse
      exact absurd (hwf.1 hfalse) (shouldFlush_queue_ne_nil hf)
    · exact hwf.2.sublist (flushSlots_remaining_sublist now _ _ _)
  · rw [flush_neg_eq s now (by simpa using hf)]
    exact hwf

theorem runEvents_stale :
    ∀ (evs : List JitterEvent) (s : JitterBuffer),
      JitterEvent.clearEv ∉ evs → JitterBufferWF s → s.isInitialized = true →
      ∀ p ∈ s.packetQueue, p.sequence < s.expectedSequence →
      (runEvents s evs).1.isInitialized = true ∧
      JitterBufferWF (runEvents s evs).1 ∧
      p ∈ (runEvents s evs).1.packetQueue ∧
      p.sequence < (runEvents s evs).1.expectedSequence := by
  intro evs
  induction evs with
  | nil =>
    intro s _ hwf hinit p hp hlt
    exact ⟨hinit, hwf, hp, hlt⟩
  | cons e rest ih =>
    intro s hclear hwf hinit p hp hlt
    have hclear' : JitterEvent.clearEv ∉ rest := fun hmem => hclear (List.mem_cons_of_mem _ hmem)
    cases e with
    | clearEv => exact absurd (List.mem_cons_self _ _) hclear
    | bufferEv q t =>
      have he : (s.bufferPacket q t).expectedSequence = s.expectedSequence := by
        simp [JitterBuffer.bufferPacket, hinit]
      have := ih (s.bufferPacket q t) hclear' (wf_bufferPacket s q t)
        (by simp [JitterBuffer.bufferPacket]) p (mem_bufferPacket_of_mem q t hp)
        (by rw [he]; exact hlt)
      simpa [runEvents] using this
    | flushEv t =>
      by_cases hf : s.shouldFlush t = true
      · have hinit' : (s.flush t).2.isInitialized = true := by
          rw [flush_isInitialized]; exact hinit
        have hwf' : JitterBufferWF (s.flush t).2 := wf_flush s t hwf
        have hp' : p ∈ (s.flush t).2.packetQueue := by
          rw [flush_pos_eq s t hf]
          exact flushSlots_keeps_stale t _ _ _ p hp hlt
        have hlt' : p.sequence < (s.flush t).2.expectedSequence :=
          lt_of_lt_of_le hlt (flush_expected_mono s t)
        have := ih (s.flush t).2 hclear' hwf' hinit' p hp' hlt'
        simpa [runEvents] using this
      · have hneg := flush_neg_eq s t (by simpa using hf)
        have := ih (s.flush t).2 hclear' (by rw [hneg]; exact hwf)
          (by rw [hneg]; exact hinit) p (by rw [hneg]; exact hp) (by rw [hneg]; exact hlt)
        simpa [runEvents] using this

theorem sorted_head_le {l : List JitterBufferPacket} {p : JitterBufferPacket}
    (hs : l.Pairwise (fun a b => a.sequence ≤ b.sequence)) (hp : p ∈ l) :
    ∃ q0 rest, l = q0 :: rest ∧ q0.sequence ≤ p.sequence := by
  cases l with
  | nil => simp at hp
  | cons q0 rest =>
    refine ⟨q0, rest, rfl, ?_⟩
    rcases List.mem_cons.mp hp with he | hm
    · rw [he]
    · exact (List.pairwise_cons.mp hs).1 p hm

theorem shouldFlush_satisfiable {s : JitterBuffer} (h : s.packetQueue ≠ []) :
    ∃ now, s.shouldFlush now = true := by
  cases hq : s.packetQueue with
  | nil => exact absurd hq h
  | cons q0 rest =>
    refine ⟨q0.bufferedAt + TARGET_DELAY_MS, ?_⟩
    rw [JitterBuffer.shouldFlush, hq]
    simp [TARGET_DELAY_MS]

/-! ## Claim theorems -/

/-- C2: within one participant's stream, the concatenation of the frames
emitted across all flush calls of one jitter buffer (with no intervening
clear) carries strictly increasing sequence numbers, so no sequence number
is ever emitted twice, however packets were reordered or duplicated on
arrival. -/
theorem jitterBuffer_emissions_strictly_increasing (evs : List JitterEvent)
    (hclear : JitterEvent.clearEv ∉ evs) :
    ((runEvents JitterBuffer.initState evs).2.map (fun p => p.sequence)).Pairwise (· < ·) :=
  (runEvents_emissions evs JitterBuffer.initState hclear (fun _ => rfl)).1

theorem jitterBuffer_emissions_strictly_increasing_witness :
    JitterEvent.clearEv ∉ reorderTrace ∧
    (runEvents JitterBuffer.initState reorderTrace).2.map (fun p => p.sequence) = [6, 7, 8] ∧
    ((runEvents JitterBuffer.initState reorderTrace).2.map
      (fun p => p.sequence)).Pairwise (· < ·) :=
  ⟨by decide, by decide,
   jitterBuffer_emissions_strictly_increasing reorderTrace (by decide)⟩

/-- C1 counterexample: with one packet (sequence 10) buffered at time 0 and
a flush at time 60, three frame-slots have elapsed, but the flush loop stops
as soon as the queue is empty: only the single real frame is emitted — no
silence placeholders for slots 11 and 12 — while `expectedSequence` still
advances by the full three slots (10 → 13), not by the one slot processed. -/
theorem flush_early_exit_cex :
    (runEvents JitterBuffer.initState earlyExitTrace).2.map (fun p => p.sequence) = [10] ∧
    (runEvents JitterBuffer.initState earlyExitTrace).1.expectedSequence = 13 ∧
    max 1 (((60 : ℤ) - 0).fdiv FRAME_DURATION_MS) = 3 := by decide

/-- C1 (amended): when `shouldFlush` holds, flush computes the elapsed
slot count as `max(1, floor((now - oldest.bufferedAt) / 20))`, emits at
most that many frames, stopping early exactly when the queue empties; each
emitted frame at slot `i` carries sequence `expectedSequence + i` and is the
buffered packet with that sequence if one is buffered, else the silence
placeholder tagged with it; and `expectedSequence` advances by the full
elapsed-slot count regardless of how many slots were actually processed. -/
theorem flush_slot_semantics (s : JitterBuffer) (now : ℤ)
    (hf : s.shouldFlush now = true) :
    (∃ p0 rest, s.packetQueue = p0 :: rest ∧
      expectedPacketCount s now = max 1 ((now - p0.bufferedAt).fdiv FRAME_DURATION_MS)) ∧
    (s.flush now).1.length ≤ (expectedPacketCount s now).toNat ∧
    ((s.flush now).1.length = (expectedPacketCount s now).toNat ∨
      (s.flush now).2.packetQueue = []) ∧
    (∀ (i : ℕ) (x : JitterBufferPacket), (s.flush now).1[i]? = some x →
      x.sequence = s.expectedSequence + i ∧
      ((∃ p ∈ s.packetQueue, p.sequence = s.expectedSequence + i) → x ∈ s.packetQueue) ∧
      ((¬ ∃ p ∈ s.packetQueue, p.sequence = s.expectedSequence + i) →
        x = createSilencePacket (s.expectedSequence + i) now)) ∧
    (s.flush now).2.expectedSequence = s.expectedSequence + expectedPacketCount s now := by
  obtain ⟨p0, rest, hq⟩ : ∃ p0 rest, s.packetQueue = p0 :: rest := by
    cases hq : s.packetQueue with
    | nil => exact absurd hq (shouldFlush_queue_ne_nil hf)
    | cons a b => exact ⟨a, b, rfl⟩
  refine ⟨⟨p0, rest, hq, by simp [expectedPacketCount, hq]⟩, ?_, ?_, ?_, ?_⟩
  · rw [flush_pos_eq s now hf]
    exact flushSlots_length_le now _ _ _
  · rw [flush_pos_eq s now hf]
    rcases flushSlots_length_eq_or_nil now (expectedPacketCount s now).toNat
      s.expectedSequence s.packetQueue with h | h
    · left; exact h
    · right; exact h
  · intro i x hx
    rw [flush_pos_eq s now hf] at hx
    exact ⟨flushSlots_getElem_seq now _ _ _ i x hx,
      fun hex => flushSlots_getElem_mem now _ _ _ i x hx hex,
      fun hnex => flushSlots_getElem_silence now _ _ _ i x hx hnex⟩
  · rw [flush_pos_eq s now hf]

theorem flush_slot_semantics_witness :
    gapState.shouldFlush 80 = true ∧
    (gapState.flush 80).1 =
      [packet4, createSilencePacket 5 80, createSilencePacket 6 80, packet7] ∧
    (gapState.flush 80).2.expectedSequence =
      gapState.expectedSequence + expectedPacketCount gapState 80 :=
  ⟨by decide, by decide, (flush_slot_semantics gapState 80 (by decide)).2.2.2.2⟩

/-- C10: a packet buffered with a sequence number strictly below the current
`expectedSequence` is never emitted by any later flush and never removed by
flush; it stays in the queue across any clear-free sequence of operations,
a stale packet occupies the head of the (sequence-sorted) queue, and
`shouldFlush` stays satisfiable (pick any time 150ms past the head's
arrival). -/
theorem stale_packet_stuck (s : JitterBuffer) (hwf : JitterBufferWF s)
    (p : JitterBufferPacket) (hp : p ∈ s.packetQueue)
    (hstale : p.sequence < s.expectedSequence)
    (evs : List JitterEvent) (hclear : JitterEvent.clearEv ∉ evs) :
    p ∈ (runEvents s evs).1.packetQueue ∧
    (∀ q ∈ (runEvents s evs).2, p.sequence < q.sequence) ∧
    (∃ q0 rest, (runEvents s evs).1.packetQueue = q0 :: rest ∧
      q0.sequence ≤ p.sequence) ∧
    (∃ now, (runEvents s evs).1.shouldFlush now = true) := by
  have hinit : s.isInitialized = true := by
    cases hb : s.isInitialized with
    | false => exact absurd hp (by rw [hwf.1 hb]; simp)
    | true => rfl
  obtain ⟨hinit', hwf', hp', hlt'⟩ := runEvents_stale evs s hclear hwf hinit p hp hstale
  have hbound := (runEvents_emissions evs s hclear hwf.1).2 hinit
  refine ⟨hp', ?_, sorted_head_le hwf'.2 hp', shouldFlush_satisfiable ?_⟩
  · intro q hq
    exact lt_of_lt_of_le hstale (hbound q hq)
  · intro hnil
    rw [hnil] at hp'
    simp at hp'

theorem stale_packet_stuck_witness :
    stalePacket ∈ (runEvents staleState [JitterEvent.flushEv 300]).1.packetQueue ∧
    (∃ now, (runEvents staleState [JitterEvent.flushEv 300]).1.shouldFlush now = true) ∧
    (runEvents staleState [JitterEvent.flushEv 300]).1.packetQueue = [stalePacket] := by
  have hwf : JitterBufferWF staleState := by
    constructor
    · intro h; simp [staleState] at h
    · simp [staleState]
  have happ := stale_packet_stuck staleState hwf stalePacket (by decide) (by decide)
    [JitterEvent.flushEv 300] (by decide)
  exact ⟨happ.1, happ.2.2.2, by decide⟩

/-- C6 counterexample: in the empty-queue state, 20ms have elapsed since
the (initial) last flush time, so the claim's condition holds, yet
`shouldFlush` returns false. -/
theorem shouldFlush_empty_queue_cex :
    JitterBuffer.shouldFlush JitterBuffer.initState 20 = false ∧
    JitterBuffer.initState.packetQueue = [] ∧
    FRAME_DURATION_MS ≤ 20 - JitterBuffer.initState.lastFlushTime := by decide

/-- C6 (amended): `shouldFlush(now)` is false whenever no packet is
buffered; with a non-empty queue it is true exactly when the head packet's
buffered age is at least the 150ms target delay or at least 20ms have
elapsed since the last flush. -/
theorem shouldFlush_characterization (s : JitterBuffer) (now : ℤ) :
    s.shouldFlush now = true ↔
      ∃ oldestPacket rest, s.packetQueue = oldestPacket :: rest ∧
        (TARGET_DELAY_MS ≤ now - oldestPacket.bufferedAt ∨
         FRAME_DURATION_MS ≤ now - s.lastFlushTime) := by
  cases hq : s.packetQueue with
  | nil =>
    rw [JitterBuffer.shouldFlush, hq]
    simp
  | cons p t =>
    rw [JitterBuffer.shouldFlush, hq]
    simp

/-- C9: `parseRtpHeader` fails (with the MalformedPacket error) precisely on
buffers of fewer than 12 bytes, and succeeds on every buffer of at least 12
bytes — no field value (such as an RTP version other than 2) can cause a
failure. -/
theorem parseRtpHeader_length_check (buffer : List ℕ) :
    (buffer.length < 12 →
      parseRtpHeader buffer = Except.error "Buffer too small for RTP header") ∧
    (12 ≤ buffer.length → ∃ h : RtpHeader, parseRtpHeader buffer = Except.ok h) := by
  constructor
  · intro h
    rw [parseRtpHeader, if_pos h]
  · intro h
    rw [parseRtpHeader, if_neg (Nat.not_lt.mpr h)]
    exact ⟨_, rfl⟩

theorem parseRtpHeader_length_check_witness :
    (shortPacket.length < 12 ∧
      parseRtpHeader shortPacket = Except.error "Buffer too small for RTP header") ∧
    (12 ≤ zeroVersionPacket.length ∧
      (∃ h : RtpHeader, parseRtpHeader zeroVersionPacket = Except.ok h) ∧
      parseRtpHeader zeroVersionPacket = Except.ok
        { version := 0, padding := false, extension := false, csrcCount := 0,
          marker := false, payloadType := 0, sequenceNumber := 5, timestamp := 0,
          ssrc := 7 }) :=
  ⟨⟨by decide, (parseRtpHeader_length_check shortPacket).1 (by decide)⟩,
   ⟨by decide, (parseRtpHeader_length_check zeroVersionPacket).2 (by decide), by rfl⟩⟩

/-- C5 counterexample: a 16-byte packet with the extension flag set whose
extension header declares 100 extension words, placing the payload start at
byte 416 — far past the end of the buffer.  `extractOpusPayload` does not
fail: the slice clamps and an empty payload is returned silently. -/
theorem extractOpusPayload_oversized_cex :
    extractOpusPayload oversizedExtensionPacket = Except.ok ([] : List ℕ) ∧
    oversizedExtensionPacket.length = 16 ∧
    readUInt16BE oversizedExtensionPacket 14 = 100 ∧
    oversizedExtensionPacket.length < 12 + 4 + 100 * 4 :=
  ⟨by rfl, by decide, by decide, by decide⟩

/-- C5 (amended): with the extension flag set, `extractOpusPayload` fails
with MalformedPacket only when the buffer cannot hold the 4-byte extension
header itself; whenever the extension header fits, it succeeds and returns
the suffix from the declared payload start — which is the empty payload
(never an error) when the declared extension length puts that start past
the end of the buffer, since the slice clamps. -/
theorem extractOpusPayload_extension_bounds (buffer : List ℕ) (h : RtpHeader)
    (hparse : parseRtpHeader buffer = Except.ok h) (hext : h.extension = true) :
    (buffer.length < csrcPayloadStart h + 4 →
      extractOpusPayload buffer = Except.error "Buffer too small for RTP extension header") ∧
    (csrcPayloadStart h + 4 ≤ buffer.length →
      extractOpusPayload buffer = Except.ok
        (buffer.drop
          (csrcPayloadStart h + 4 + readUInt16BE buffer (csrcPayloadStart h + 2) * 4))) := by
  constructor
  · intro hlt
    simp [extractOpusPayload, hparse, hext, hlt]
  · intro hge
    simp [extractOpusPayload, hparse, hext, Nat.not_lt.mpr hge]

theorem extractOpusPayload_extension_bounds_witness :
    parseRtpHeader oversizedExtensionPacket = Except.ok hdrOversized ∧
    hdrOversized.extension = true ∧
    csrcPayloadStart hdrOversized + 4 ≤ oversizedExtensionPacket.length ∧
    extractOpusPayload oversizedExtensionPacket =
      Except.ok (oversizedExtensionPacket.drop
        (csrcPayloadStart hdrOversized + 4 +
          readUInt16BE oversizedExtensionPacket (csrcPayloadStart hdrOversized + 2) * 4)) :=
  ⟨by rfl, by rfl, by decide,
   (extractOpusPayload_extension_bounds oversizedExtensionPacket hdrOversized
      (by rfl) (by rfl)).2 (by decide)⟩

/-- C7: `correctDrift` passes the input file through unchanged whenever
`|driftMs| < 10`; otherwise the tempo factor actually applied to the
re-render is `1 - driftMs/1000` clamped into `[0.95, 1.05]`: inside the
band the raw factor is used, below it 0.95 is applied, above it 1.05. -/
theorem correctDrift_policy (inputFile : String) (driftMs : ℚ) :
    (|driftMs| < DRIFT_THRESHOLD_MS →
      correctDrift inputFile driftMs = DriftCorrectionResult.unchanged inputFile) ∧
    (DRIFT_THRESHOLD_MS ≤ |driftMs| →
      ∃ factor,
        correctDrift inputFile driftMs = DriftCorrectionResult.rerendered inputFile factor ∧
        95 / 100 ≤ factor ∧ factor ≤ 105 / 100 ∧
        (1 - driftMs / 1000 < 95 / 100 → factor = 95 / 100) ∧
        (105 / 100 < 1 - driftMs / 1000 → factor = 105 / 100) ∧
        (95 / 100 ≤ 1 - driftMs / 1000 → 1 - driftMs / 1000 ≤ 105 / 100 →
          factor = 1 - driftMs / 1000)) := by
  constructor
  · intro h
    simp [correctDrift, h]
  · intro h
    have hnot : ¬ |driftMs| < DRIFT_THRESHOLD_MS := not_lt.mpr h
    refine ⟨max (95 / 100) (min (105 / 100) (1 - driftMs / 1000)),
      by simp [correctDrift, hnot], le_max_left _ _,
      max_le (by norm_num) (min_le_left _ _), ?_, ?_, ?_⟩
    · intro hlt
      rw [min_eq_right (le_of_lt (lt_trans hlt (by norm_num)))]
      exact max_eq_left (le_of_lt hlt)
    · intro hgt
      rw [min_eq_left (le_of_lt hgt)]
      exact max_eq_right (by norm_num)
    · intro h1 h2
      rw [min_eq_right h2]
      exact max_eq_right h1

theorem correctDrift_policy_witness :
    (|(5 : ℚ)| < DRIFT_THRESHOLD_MS ∧
      correctDrift "track.pcm" 5 = DriftCorrectionResult.unchanged "track.pcm") ∧
    (1 - (-200 : ℚ) / 1000 = 12 / 10 ∧
      correctDrift "track.pcm" (-200) =
        DriftCorrectionResult.rerendered "track.pcm" (105 / 100)) ∧
    (1 - (200 : ℚ) / 1000 = 8 / 10 ∧
      correctDrift "track.pcm" 200 =
        DriftCorrectionResult.rerendered "track.pcm" (95 / 100)) := by
  refine ⟨⟨by norm_num [DRIFT_THRESHOLD_MS],
    (correctDrift_policy "track.pcm" 5).1 (by norm_num [DRIFT_THRESHOLD_MS])⟩, ⟨by norm_num, ?_⟩,
    ⟨by norm_num, ?_⟩⟩
  · obtain ⟨f, heq, _, _, _, hhi, _⟩ :=
      (correctDrift_policy "track.pcm" (-200)).2 (by norm_num [DRIFT_THRESHOLD_MS])
    rw [heq, hhi (by norm_num)]
  · obtain ⟨f, heq, _, _, hlo, _, _⟩ :=
      (correctDrift_policy "track.pcm" 200).2 (by norm_num [DRIFT_THRESHOLD_MS])
    rw [heq, hlo (by norm_num)]

/-- C8: in a flush-cycle tick, every frame emitted by flush produces exactly
one PCM block: the decoder's output when decoding succeeds, and a silence
block of exactly 3840 bytes (20ms of 48kHz 16-bit stereo) when the decode
capability fails on that frame.  The failure is absorbed — the tick is a
total function for every decode capability — and the number of blocks
written equals the number of frames flushed. -/
theorem decode_failure_concealed (decode : List ℕ → Option (List ℕ))
    (s : JitterBuffer) (now : ℤ) :
    (processJitterBuffer decode s now).2.length = (s.flush now).1.length ∧
    silencePCMBlock.length = 3840 ∧ 3840 = 48000 * 20 / 1000 * 2 * 2 ∧
    (∀ (i : ℕ) (p : JitterBufferPacket), (s.flush now).1[i]? = some p →
      decode p.data = none →
      (processJitterBuffer decode s now).2[i]? = some silencePCMBlock) ∧
    (∀ (i : ℕ) (p : JitterBufferPacket) (pcm : List ℕ), (s.flush now).1[i]? = some p →
      decode p.data = some pcm →
      (processJitterBuffer decode s now).2[i]? = some pcm) := by
  refine ⟨?_, by rw [silencePCMBlock, List.length_replicate], by norm_num, ?_, ?_⟩
  · show (processFlushedPackets decode (s.flush now).1).length = (s.flush now).1.length
    rw [processFlushedPackets]
    exact List.length_map _ _
  · intro i p hp hd
    show (processFlushedPackets decode (s.flush now).1)[i]? = some silencePCMBlock
    rw [processFlushedPackets, List.getElem?_map, hp]
    simp [hd]
  · intro i p pcm hp hd
    show (processFlushedPackets decode (s.flush now).1)[i]? = some pcm
    rw [processFlushedPackets, List.getElem?_map, hp]
    simp [hd]

theorem decode_failure_concealed_witness :
    (decodeState.flush 200).1[0]? =
      some { data := [1], sequence := 0, timestamp := 0, bufferedAt := 0 } ∧
    failingDecode [1] = none ∧
    (processJitterBuffer failingDecode decodeState 200).2[0]? = some silencePCMBlock ∧
    (processJitterBuffer failingDecode decodeState 200).2.length =
      (decodeState.flush 200).1.length :=
  ⟨by decide, by decide,
   (decode_failure_concealed failingDecode decodeState 200).2.2.2.1 0
     { data := [1], sequence := 0, timestamp := 0, bufferedAt := 0 } (by decide) (by decide),
   (decode_failure_concealed failingDecode decodeState 200).1⟩

/-! ### Minimum via `foldl min` -/

theorem foldl_min_le (xs : List ℚ) (x : ℚ) :
    xs.foldl min x ≤ x ∧ ∀ y ∈ xs, xs.foldl min x ≤ y := by
  induction xs generalizing x with
  | nil => simp
  | cons a t ih =>
    rw [List.foldl_cons]
    obtain ⟨h1, h2⟩ := ih (min x a)
    constructor
    · exact le_trans h1 (min_le_left _ _)
    · intro y hy
      rcases List.mem_cons.mp hy with he | hm
      · rw [he]
        exact le_trans h1 (min_le_right _ _)
      · exact h2 y hm

theorem foldl_min_mem (xs : List ℚ) (x : ℚ) :
    xs.foldl min x = x ∨ xs.foldl min x ∈ xs := by
  induction xs generalizing x with
  | nil => left; rfl
  | cons a t ih =>
    rw [List.foldl_cons]
    rcases ih (min x a) with h | h
    · rcases min_cases x a with ⟨hm, _⟩ | ⟨hm, _⟩
      · left; rw [h, hm]
      · right; rw [h, hm]; exact List.mem_cons_self _ _
    · right; exact List.mem_cons_of_mem _ h

/-- C3: `calculateGlobalStartTime` is 0 on no tracks and otherwise the
minimum of the tracks' `startTimeHR` values in milliseconds (a lower bound
that is attained); every computed delay entry is non-negative, and every
track starting exactly at the global start time gets the delay 0. -/
theorem timeline_offsets (tracks : List TrackMetadata) :
    (tracks = [] → calculateGlobalStartTime tracks = 0) ∧
    (∀ tr ∈ tracks, calculateGlobalStartTime tracks ≤ hrtimeToMs tr.startTimeHR) ∧
    (tracks ≠ [] → ∃ tr ∈ tracks,
      calculateGlobalStartTime tracks = hrtimeToMs tr.startTimeHR) ∧
    (∀ e ∈ calculateTrackDelays tracks (calculateGlobalStartTime tracks), 0 ≤ e.2) ∧
    (∀ tr ∈ tracks, hrtimeToMs tr.startTimeHR = calculateGlobalStartTime tracks →
      (tr.userId, (0 : ℤ)) ∈ calculateTrackDelays tracks (calculateGlobalStartTime tracks)) := by
  refine ⟨?_, ?_, ?_, ?_, ?_⟩
  · intro h
    rw [h]
    rfl
  · intro tr htr
    cases tracks with
    | nil => simp at htr
    | cons t0 rest =>
      show ((rest.map fun track => hrtimeToMs track.startTimeHR).foldl min
        (hrtimeToMs t0.startTimeHR)) ≤ hrtimeToMs tr.startTimeHR
      rcases List.mem_cons.mp htr with he | hm
      · rw [he]
        exact (foldl_min_le _ _).1
      · exact (foldl_min_le _ _).2 _ (List.mem_map_of_mem _ hm)
  · intro hne
    cases tracks with
    | nil => exact absurd rfl hne
    | cons t0 rest =>
      rcases foldl_min_mem (rest.map fun track => hrtimeToMs track.startTimeHR)
        (hrtimeToMs t0.startTimeHR) with h | h
      · exact ⟨t0, List.mem_cons_self _ _, h⟩
      · obtain ⟨tr, htr, hf⟩ := List.mem_map.mp h
        exact ⟨tr, List.mem_cons_of_mem _ htr, hf.symm⟩
  · intro e he
    obtain ⟨tr, _, he'⟩ := List.mem_map.mp he
    rw [← he']
    exact le_max_left _ _
  · intro tr htr heq
    have hz : max (0 : ℤ)
        (jsRound (hrtimeToMs tr.startTimeHR - calculateGlobalStartTime tracks)) = 0 := by
      rw [heq, sub_self]
      have hj : jsRound 0 = 0 := by
        rw [jsRound]
        norm_num
      rw [hj]
      simp
    refine List.mem_map.mpr ⟨tr, htr, ?_⟩
    show (tr.userId,
      max 0 (jsRound (hrtimeToMs tr.startTimeHR - calculateGlobalStartTime tracks))) =
      (tr.userId, (0 : ℤ))
    rw [hz]

theorem timeline_offsets_witness :
    exampleTracks ≠ [] ∧
    calculateGlobalStartTime exampleTracks = 100 ∧
    calculateTrackDelays exampleTracks (calculateGlobalStartTime exampleTracks) =
      [("a", 0), ("b", 150), ("c", 300)] ∧
    (∃ tr ∈ exampleTracks,
      calculateGlobalStartTime exampleTracks = hrtimeToMs tr.startTimeHR) ∧
    ("a", (0 : ℤ)) ∈ calculateTrackDelays exampleTracks
      (calculateGlobalStartTime exampleTracks) := by
  have hg : calculateGlobalStartTime exampleTracks = 100 := by
    show min (min (hrtimeToMs (0, 100000000)) (hrtimeToMs (0, 250000000)))
      (hrtimeToMs (0, 400000000)) = 100
    norm_num [hrtimeToMs, min_def]
  refine ⟨by decide, hg, ?_, (timeline_offsets exampleTracks).2.2.1 (by decide), ?_⟩
  · show [("a", max 0 (jsRound (hrtimeToMs (0, 100000000) -
        calculateGlobalStartTime exampleTracks))),
      ("b", max 0 (jsRound (hrtimeToMs (0, 250000000) -
        calculateGlobalStartTime exampleTracks))),
      ("c", max 0 (jsRound (hrtimeToMs (0, 400000000) -
        calculateGlobalStartTime exampleTracks)))] = [("a", 0), ("b", 150), ("c", 300)]
    rw [hg]
    norm_num [hrtimeToMs, jsRound, max_def]
  · have := (timeline_offsets exampleTracks).2.2.2.2
      { userId := "a", ssrc := 1, startTimeRTP := 0, startTimeHR := (0, 100000000),
        opusSampleRate := 48000, pcmSampleRate := 48000, filename := "a.pcm" }
      (by simp [exampleTracks]) (by rw [hg]; norm_num [hrtimeToMs])
    exact this

/-! ### Linear-regression algebra -/

theorem sum_map_pair_expand (l : List (ℚ × ℚ)) (a b : ℚ) :
    (l.map (fun p => (p.1 - a) * (p.2 - b))).sum =
      (l.map (fun p => p.1 * p.2)).sum - a * (l.map (fun p => p.2)).sum
        - b * (l.map (fun p => p.1)).sum + l.length * (a * b) := by
  induction l with
  | nil => simp
  | cons p t ih =>
    simp only [List.map_cons, List.sum_cons, List.length_cons, ih]
    push_cast
    ring

theorem sum_map_sq_expand (l : List ℚ) (a : ℚ) :
    (l.map (fun x => (x - a) ^ 2)).sum =
      (l.map (fun x => x * x)).sum - 2 * a * l.sum + l.length * (a * a) := by
  induction l with
  | nil => simp
  | cons x t ih =>
    simp only [List.map_cons, List.sum_cons, List.length_cons, ih]
    push_cast
    ring

theorem div_div_cancel_den (A B n : ℚ) (hn : n ≠ 0) : (A / n) / (B / n) = A / B := by
  by_cases hB : B = 0
  · rw [hB]
    simp
  · field_simp

theorem zip_map_fst_sum : ∀ (xs ys : List ℚ), xs.length = ys.length →
    ((xs.zip ys).map (fun p => p.1)).sum = xs.sum := by
  intro xs
  induction xs with
  | nil => intro ys _; simp
  | cons x t ih =>
    intro ys h
    cases ys with
    | nil => simp at h
    | cons y u =>
      simp only [List.zip_cons_cons, List.map_cons, List.sum_cons]
      rw [ih u (by simpa using h)]

theorem zip_map_snd_sum : ∀ (xs ys : List ℚ), xs.length = ys.length →
    ((xs.zip ys).map (fun p => p.2)).sum = ys.sum := by
  intro xs
  induction xs with
  | nil =>
    intro ys h
    cases ys with
    | nil => simp
    | cons y u => simp at h
  | cons x t ih =>
    intro ys h
    cases ys with
    | nil => simp at h
    | cons y u =>
      simp only [List.zip_cons_cons, List.map_cons, List.sum_cons]
      rw [ih u (by simpa using h)]

/-- The computational regression of the source agrees with the textbook
mean-centred OLS slope, intercept and coefficient of determination. -/
theorem regression_matches_spec (xs ys : List ℚ) (hlen : xs.length = ys.length)
    (h2 : 2 ≤ xs.length) :
    calculateLinearRegression xs ys =
      { slope := olsSlope xs ys, intercept := olsIntercept xs ys,
        r2 := rSquared xs ys } := by
  have hpos : 0 < xs.length := lt_of_lt_of_le (by norm_num) h2
  have hn0 : (xs.length : ℚ) ≠ 0 := by exact_mod_cast hpos.ne'
  have hzip_len : (((xs.zip ys).length : ℕ) : ℚ) = (xs.length : ℚ) := by
    rw [List.length_zip, hlen, min_self, ← hlen]
  have hmx : listMean xs = xs.sum / xs.length := rfl
  have hmy : listMean ys = ys.sum / xs.length := by
    rw [listMean, ← hlen]
  have hcov : ((xs.zip ys).map
      (fun p => (p.1 - listMean xs) * (p.2 - listMean ys))).sum =
      ((xs.length : ℚ) * ((xs.zip ys).map (fun p => p.1 * p.2)).sum - xs.sum * ys.sum) /
        (xs.length : ℚ) := by
    rw [sum_map_pair_expand, zip_map_fst_sum xs ys hlen, zip_map_snd_sum xs ys hlen,
      hzip_len, hmx, hmy]
    field_simp
    ring
  have hvar : (xs.map (fun x => (x - listMean xs) ^ 2)).sum =
      ((xs.length : ℚ) * (xs.map (fun x => x * x)).sum - xs.sum * xs.sum) /
        (xs.length : ℚ) := by
    rw [sum_map_sq_expand, hmx]
    field_simp
    ring
  have hslope : olsSlope xs ys =
      ((xs.length : ℚ) * ((xs.zip ys).map (fun p => p.1 * p.2)).sum - xs.sum * ys.sum) /
        ((xs.length : ℚ) * (xs.map (fun x => x * x)).sum - xs.sum * xs.sum) := by
    rw [olsSlope, hcov, hvar, div_div_cancel_den _ _ _ hn0]
  have hgen : ∀ s : ℚ, ys.sum / xs.length - s * (xs.sum / xs.length) =
      (ys.sum - s * xs.sum) / xs.length := by
    intro s
    field_simp
  have hint : olsIntercept xs ys =
      (ys.sum -
        (((xs.length : ℚ) * ((xs.zip ys).map (fun p => p.1 * p.2)).sum - xs.sum * ys.sum) /
          ((xs.length : ℚ) * (xs.map (fun x => x * x)).sum - xs.sum * xs.sum)) * xs.sum) /
        (xs.length : ℚ) := by
    rw [olsIntercept, hmy, hmx, hgen, hslope]
  have htot : totalSS ys = (ys.map (fun y => (y - ys.sum / (xs.length : ℚ)) ^ 2)).sum := by
    rw [totalSS, hmy]
  have hres : residualSS xs ys = ((xs.zip ys).map
      (fun p => (p.2 -
        ((((xs.length : ℚ) * ((xs.zip ys).map (fun q => q.1 * q.2)).sum - xs.sum * ys.sum) /
            ((xs.length : ℚ) * (xs.map (fun x => x * x)).sum - xs.sum * xs.sum)) * p.1 +
          (ys.sum -
            (((xs.length : ℚ) * ((xs.zip ys).map (fun q => q.1 * q.2)).sum - xs.sum * ys.sum) /
              ((xs.length : ℚ) * (xs.map (fun x => x * x)).sum - xs.sum * xs.sum)) * xs.sum) /
            (xs.length : ℚ))) ^ 2)).sum := by
    rw [residualSS, hslope, hint]
  have hnlt : ¬ (xs.length < 2) := Nat.not_lt.mpr h2
  simp only [calculateLinearRegression, hnlt, if_false]
  rw [RegressionResult.mk.injEq]
  refine ⟨hslope.symm, hint.symm, ?_⟩
  rw [rSquared, htot, hres]

/-- C4: `detectDrift` returns zero drift, zero confidence, and the raw
sample count below the 100-sample minimum; at or above it, it returns
`driftMs = (slope - 1) * 1000` for the ordinary-least-squares slope of the
media timestamps (converted to milliseconds by dividing by 48) against the
arrival times, with confidence equal to the regression's coefficient of
determination (defined to be 1 when the total variance of the y-values is
zero). -/
theorem detectDrift_spec (timeline : UserTimeline) :
    (timeline.packets.length < MIN_SAMPLES_FOR_ANALYSIS →
      detectDrift timeline =
        { driftMs := 0, confidence := 0, samplesAnalyzed := timeline.packets.length }) ∧
    (MIN_SAMPLES_FOR_ANALYSIS ≤ timeline.packets.length →
      detectDrift timeline =
        { driftMs := (olsSlope (timeline.packets.map fun p => p.arrivalTime)
              (timeline.packets.map fun p => p.timestamp / 48) - 1) * 1000
          confidence := rSquared (timeline.packets.map fun p => p.arrivalTime)
            (timeline.packets.map fun p => p.timestamp / 48)
          samplesAnalyzed := timeline.packets.length }) := by
  constructor
  · intro h
    simp [detectDrift, h]
  · intro h
    have hnlt : ¬ (timeline.packets.length < MIN_SAMPLES_FOR_ANALYSIS) := Nat.not_lt.mpr h
    have hx2 : 2 ≤ (timeline.packets.map fun p => p.arrivalTime).length := by
      rw [List.length_map]
      rw [MIN_SAMPLES_FOR_ANALYSIS] at h
      omega
    simp only [detectDrift, hnlt, if_false]
    rw [regression_matches_spec (timeline.packets.map fun p => p.arrivalTime)
      (timeline.packets.map fun p => p.timestamp / 48) (by simp) hx2]

theorem detectDrift_spec_witness :
    (tinyTimeline.packets.length < MIN_SAMPLES_FOR_ANALYSIS ∧
      detectDrift tinyTimeline =
        { driftMs := 0, confidence := 0, samplesAnalyzed := tinyTimeline.packets.length }) ∧
    (MIN_SAMPLES_FOR_ANALYSIS ≤ syntheticTimeline.packets.length ∧
      detectDrift syntheticTimeline =
        { driftMs := (olsSlope (syntheticTimeline.packets.map fun p => p.arrivalTime)
              (syntheticTimeline.packets.map fun p => p.timestamp / 48) - 1) * 1000
          confidence := rSquared (syntheticTimeline.packets.map fun p => p.arrivalTime)
            (syntheticTimeline.packets.map fun p => p.timestamp / 48)
          samplesAnalyzed := syntheticTimeline.packets.length }) :=
  ⟨⟨by decide, (detectDrift_spec tinyTimeline).1 (by decide)⟩,
   ⟨by decide, (detectDrift_spec syntheticTimeline).2 (by decide)⟩⟩
